import Mathlib

/-!
Shallow embedding of the generational slot store implemented in
src/src/lib.rs, together with theorems settling the specification
claims about it.

Modelling conventions:
- Rust usize values are modelled as Nat.  Overflow of the allocation
  counter (a Rust panic in checked builds, reachable only after about
  2 ^ 64 allocations) is not modelled; where a claim depends on the
  64-bit range of usize, the bound appears as an explicit hypothesis.
- usize::to_be_bytes()[0], the most significant byte of a 64-bit
  value, is x / 2 ^ 56 % 256.
- Rust Result<A, StoreError> becomes Except StoreError A.
- Mutating methods become functions returning the result paired with
  the updated store.  References (&T, &mut T) become the referenced
  value.
- The process-wide AtomicU8 instance counter read by Store::new is a
  parameter of the model constructor (the u8 value already wrapped).
-/

variable {T : Type}

/-- A slot of some data: the optional payload together with the
allocation counter value recorded when the slot was created
(fields value and alloc_idx of struct Slot in the source). -/
structure Slot (T : Type) where
  value : Option T
  alloc_idx : Nat
  deriving Repr, DecidableEq

/-- A Handle possibly pointing to a value within a Store: the slot
index and the allocation counter value at issuance (fields index and
alloc_idx of struct Handle; the PhantomData type tag has no runtime
content and is represented by the type parameter alone). -/
structure Handle (T : Type) where
  index : Nat
  alloc_idx : Nat
  deriving Repr, DecidableEq

/-- A Store of values accessible through Handles: the slot sequence
and the allocation counter (fields values and alloc_idx of struct
Store in the source). -/
structure Store (T : Type) where
  values : List (Slot T)
  alloc_idx : Nat
  deriving Repr, DecidableEq

/-- The error enum StoreError of the source. -/
inductive StoreError where
  | StoreMutated
  | WrongStore
  | SlotEmpty
  deriving Repr, DecidableEq

deriving instance DecidableEq for Except

/-- Most significant byte of a 64-bit big-endian value:
x.to_be_bytes()[0] for x : usize. -/
def topByte (x : Nat) : Nat :=
  x / 2 ^ 56 % 256

/-- Slot::new_empty. -/
def Slot.new_empty (alloc_idx : Nat) : Slot T :=
  { value := none, alloc_idx := alloc_idx }

/-- Slot::new_occupied. -/
def Slot.new_occupied (val : T) (alloc_idx : Nat) : Slot T :=
  { value := some val, alloc_idx := alloc_idx }

/-- Slot::take: replace the payload with None, returning the old
payload together with the updated slot. -/
def Slot.take (s : Slot T) : Option T × Slot T :=
  (s.value, { value := none, alloc_idx := s.alloc_idx })

/-- Slot::swap: replace the payload with Some(val), returning the old
payload together with the updated slot. -/
def Slot.swap (s : Slot T) (val : T) : Option T × Slot T :=
  (s.value, { value := some val, alloc_idx := s.alloc_idx })

/-- Handle::new. -/
def Handle.new (T : Type) (index : Nat) (alloc_idx : Nat) : Handle T :=
  { index := index, alloc_idx := alloc_idx }

/-- Store::new: empty slot sequence; alloc_idx is
usize::from_be_bytes([c, 0, 0, 0, 0, 0, 0, 0]) = c * 2 ^ 56 where c is
the u8 read from the process-wide instance counter (taken here as a
parameter, reduced mod 256 as the u8 type does). -/
def Store.new (T : Type) (c : Nat) : Store T :=
  { values := [], alloc_idx := c % 256 * 2 ^ 56 }

/-- Store::clear: self.values.clear() leaves alloc_idx unchanged. -/
def Store.clear (s : Store T) : Store T :=
  { values := [], alloc_idx := s.alloc_idx }

/-- Store::insert: push an occupied slot stamped with the current
alloc_idx, return the handle (old length, old alloc_idx), increment
alloc_idx. -/
def Store.insert (s : Store T) (value : T) : Store T × Handle T :=
  ({ values := s.values ++ [Slot.new_occupied value s.alloc_idx],
     alloc_idx := s.alloc_idx + 1 },
   Handle.new T s.values.length s.alloc_idx)

/-- Store::alloc: like insert but the pushed slot is empty. -/
def Store.alloc (s : Store T) : Store T × Handle T :=
  ({ values := s.values ++ [Slot.new_empty s.alloc_idx],
     alloc_idx := s.alloc_idx + 1 },
   Handle.new T s.values.length s.alloc_idx)

/-- Store::check_handle: ok when the stored allocation index equals
the one recorded in the handle; otherwise WrongStore when the top
bytes differ, StoreMutated when they agree. -/
def Store.check_handle (handle : Handle T) (stored_alloc_idx : Nat) :
    Except StoreError Unit :=
  if stored_alloc_idx ≠ handle.alloc_idx then
    if topByte stored_alloc_idx ≠ topByte handle.alloc_idx then
      Except.error StoreError.WrongStore
    else
      Except.error StoreError.StoreMutated
  else
    Except.ok ()

/-- Store::set: on an in-bounds index, validate against the slot
stamp then swap in the new value, returning the previous payload; on
an out-of-bounds index, validate against the live alloc_idx and, even
when that validation passes, return StoreMutated.  The store is
returned alongside the result. -/
def Store.set (s : Store T) (handle : Handle T) (value : T) :
    Except StoreError (Option T) × Store T :=
  match s.values.get? handle.index with
  | some slot =>
    match Store.check_handle handle slot.alloc_idx with
    | Except.error e => (Except.error e, s)
    | Except.ok _ =>
      (Except.ok (slot.swap value).1,
       { values := s.values.set handle.index (slot.swap value).2,
         alloc_idx := s.alloc_idx })
  | none =>
    match Store.check_handle handle s.alloc_idx with
    | Except.error e => (Except.error e, s)
    | Except.ok _ => (Except.error StoreError.StoreMutated, s)

/-- Store::take: an out-of-bounds index yields StoreMutated directly
(values.get_mut(..).ok_or(StoreError::StoreMutated)); in bounds, the
handle is validated against the slot stamp, then Slot::take runs and
an empty payload yields SlotEmpty. -/
def Store.take (s : Store T) (handle : Handle T) :
    Except StoreError T × Store T :=
  match s.values.get? handle.index with
  | none => (Except.error StoreError.StoreMutated, s)
  | some slot =>
    match Store.check_handle handle slot.alloc_idx with
    | Except.error e => (Except.error e, s)
    | Except.ok _ =>
      (match (Slot.take slot).1 with
       | some v => Except.ok v
       | none => Except.error StoreError.SlotEmpty,
       { values := s.values.set handle.index (Slot.take slot).2,
         alloc_idx := s.alloc_idx })

/-- Store::get: in bounds, validate against the slot stamp then
return the payload (SlotEmpty when absent); out of bounds, validate
against the live alloc_idx and return StoreMutated even when that
validation passes. -/
def Store.get (s : Store T) (handle : Handle T) : Except StoreError T :=
  match s.values.get? handle.index with
  | some slot =>
    match Store.check_handle handle slot.alloc_idx with
    | Except.error e => Except.error e
    | Except.ok _ =>
      match slot.value with
      | some v => Except.ok v
      | none => Except.error StoreError.SlotEmpty
  | none =>
    match Store.check_handle handle s.alloc_idx with
    | Except.error e => Except.error e
    | Except.ok _ => Except.error StoreError.StoreMutated

/-- Store::get_mut: same validation and result as get (the returned
mutable borrow is modelled by the referenced value). -/
def Store.get_mut (s : Store T) (handle : Handle T) : Except StoreError T :=
  match s.values.get? handle.index with
  | some slot =>
    match Store.check_handle handle slot.alloc_idx with
    | Except.error e => Except.error e
    | Except.ok _ =>
      match slot.value with
      | some v => Except.ok v
      | none => Except.error StoreError.SlotEmpty
  | none =>
    match Store.check_handle handle s.alloc_idx with
    | Except.error e => Except.error e
    | Except.ok _ => Except.error StoreError.StoreMutated

/-- The Index<Handle<T>> impl: &self.values[index.index].value with no
stamp validation; an out-of-bounds index panics, modelled as the none
case of the outer Option. -/
def Store.indexGet (s : Store T) (handle : Handle T) : Option (Option T) :=
  (s.values.get? handle.index).map Slot.value

/-- A store operation, used to reason about sequences of calls. -/
inductive Op (T : Type) where
  | insert (v : T)
  | alloc
  | clear
  | set (h : Handle T) (v : T)
  | take (h : Handle T)

/-- Apply one operation to a store, discarding the returned result or
handle. -/
def Store.applyOp (s : Store T) : Op T → Store T
  | Op.insert v => (s.insert v).1
  | Op.alloc => (s.alloc).1
  | Op.clear => s.clear
  | Op.set h v => (s.set h v).2
  | Op.take h => (s.take h).2

/-- Run a list of operations on a store, left to right. -/
def Store.run (s : Store T) (ops : List (Op T)) : Store T :=
  ops.foldl Store.applyOp s

/-- The handle h is issued (returned by insert or alloc) at some point
while running ops from s. -/
inductive Issues : Store T → List (Op T) → Handle T → Prop where
  | insert_head (s : Store T) (v : T) (ops : List (Op T)) :
      Issues s (Op.insert v :: ops) (s.insert v).2
  | alloc_head (s : Store T) (ops : List (Op T)) :
      Issues s (Op.alloc :: ops) (s.alloc).2
  | tail (s : Store T) (op : Op T) (ops : List (Op T)) (h : Handle T) :
      Issues (s.applyOp op) ops h → Issues s (op :: ops) h

/-- Every slot stamp is strictly below the live allocation counter. -/
def GoodStore (s : Store T) : Prop :=
  ∀ slot ∈ s.values, slot.alloc_idx < s.alloc_idx

/-- State of a store after a clear executed at counter value a0: the
counter never drops below a0 and every slot present was created at or
after a0 and strictly before the live counter. -/
def ClearedAt (a0 : Nat) (s : Store T) : Prop :=
  a0 ≤ s.alloc_idx ∧
    ∀ slot ∈ s.values, a0 ≤ slot.alloc_idx ∧ slot.alloc_idx < s.alloc_idx

theorem applyOp_alloc_idx (s : Store T) (op : Op T) :
    (s.applyOp op).alloc_idx = s.alloc_idx ∨
      (s.applyOp op).alloc_idx = s.alloc_idx + 1 := by
  cases op with
  | insert v => exact Or.inr rfl
  | alloc => exact Or.inr rfl
  | clear => exact Or.inl rfl
  | set h v =>
    simp only [Store.applyOp, Store.set]
    left
    split <;> split <;> rfl
  | take h =>
    simp only [Store.applyOp, Store.take]
    left
    split
    · rfl
    · split <;> rfl

theorem alloc_idx_le_applyOp (s : Store T) (op : Op T) :
    s.alloc_idx ≤ (s.applyOp op).alloc_idx := by
  rcases applyOp_alloc_idx s op with h | h <;> omega

theorem alloc_idx_le_run (s : Store T) (ops : List (Op T)) :
    s.alloc_idx ≤ (s.run ops).alloc_idx := by
  induction ops generalizing s with
  | nil => exact Nat.le_refl _
  | cons op ops ih =>
    exact Nat.le_trans (alloc_idx_le_applyOp s op) (ih (s.applyOp op))

theorem run_cons (s : Store T) (op : Op T) (ops : List (Op T)) :
    s.run (op :: ops) = (s.applyOp op).run ops := rfl

theorem issues_stamp_lt (s : Store T) (ops : List (Op T)) (h : Handle T) :
    Issues s ops h → h.alloc_idx < (s.run ops).alloc_idx := by
  intro hiss
  induction hiss with
  | insert_head s v ops =>
    have h1 : s.alloc_idx + 1 ≤ ((s.insert v).1.run ops).alloc_idx :=
      alloc_idx_le_run (s.insert v).1 ops
    exact h1
  | alloc_head s ops =>
    have h1 : s.alloc_idx + 1 ≤ ((s.alloc).1.run ops).alloc_idx :=
      alloc_idx_le_run (s.alloc).1 ops
    exact h1
  | tail s op ops h hi ih => exact ih

theorem check_handle_spec (h : Handle T) (a : Nat) :
    Store.check_handle h a =
      if a = h.alloc_idx then Except.ok ()
      else if topByte a = topByte h.alloc_idx then
        Except.error StoreError.StoreMutated
      else
        Except.error StoreError.WrongStore := by
  by_cases he : a = h.alloc_idx
  · simp [Store.check_handle, he]
  · by_cases ht : topByte a = topByte h.alloc_idx
    · simp [Store.check_handle, he, ht]
    · simp [Store.check_handle, he, ht]

theorem topByte_eq_of_between (a b c : Nat) (h1 : a ≤ b) (h2 : b ≤ c)
    (hc : c < 2 ^ 64) (he : topByte a = topByte c) : topByte b = topByte a := by
  have d1 : a / 2 ^ 56 ≤ b / 2 ^ 56 := Nat.div_le_div_right h1
  have d2 : b / 2 ^ 56 ≤ c / 2 ^ 56 := Nat.div_le_div_right h2
  have d3 : c / 2 ^ 56 < 256 := by
    apply Nat.div_lt_of_lt_mul
    calc c < 2 ^ 64 := hc
    _ = 2 ^ 56 * 256 := by norm_num
  simp only [topByte] at *
  omega

theorem set_get?_eq {α : Type} (l : List α) (i : Nat) (a : α)
    (h : l.get? i = some a) : l.set i a = l := by
  apply List.ext_get?
  intro n
  by_cases hn : i = n
  · subst hn
    rw [List.get?_set_eq, h]
    rfl
  · exact List.get?_set_ne a l hn

theorem applyOp_stamps (s : Store T) (op : Op T) :
    ∀ x ∈ (s.applyOp op).values,
      (∃ y ∈ s.values, x.alloc_idx = y.alloc_idx) ∨
        (x.alloc_idx = s.alloc_idx ∧
          (s.applyOp op).alloc_idx = s.alloc_idx + 1) := by
  cases op with
  | insert v =>
    intro x hx
    rcases List.mem_append.1 hx with hx | hx
    · exact Or.inl ⟨x, hx, rfl⟩
    · rcases List.mem_singleton.1 hx with rfl
      exact Or.inr ⟨rfl, rfl⟩
  | alloc =>
    intro x hx
    rcases List.mem_append.1 hx with hx | hx
    · exact Or.inl ⟨x, hx, rfl⟩
    · rcases List.mem_singleton.1 hx with rfl
      exact Or.inr ⟨rfl, rfl⟩
  | clear =>
    intro x hx
    simp [Store.applyOp, Store.clear] at hx
  | set h v =>
    intro x hx
    simp only [Store.applyOp, Store.set] at hx
    revert hx
    split
    · next slot hget =>
      split
      · exact fun hx => Or.inl ⟨x, hx, rfl⟩
      · intro hx
        rcases List.mem_or_eq_of_mem_set hx with hx | rfl
        · exact Or.inl ⟨x, hx, rfl⟩
        · exact Or.inl ⟨slot, List.get?_mem hget, rfl⟩
    · next hget =>
      split
      · exact fun hx => Or.inl ⟨x, hx, rfl⟩
      · exact fun hx => Or.inl ⟨x, hx, rfl⟩
  | take h =>
    intro x hx
    simp only [Store.applyOp, Store.take] at hx
    revert hx
    split
    · exact fun hx => Or.inl ⟨x, hx, rfl⟩
    · next slot hget =>
      split
      · exact fun hx => Or.inl ⟨x, hx, rfl⟩
      · intro hx
        rcases List.mem_or_eq_of_mem_set hx with hx | rfl
        · exact Or.inl ⟨x, hx, rfl⟩
        · exact Or.inl ⟨slot, List.get?_mem hget, rfl⟩

theorem goodStore_applyOp (s : Store T) (op : Op T) (hg : GoodStore s) :
    GoodStore (s.applyOp op) := by
  intro x hx
  have hle := alloc_idx_le_applyOp s op
  rcases applyOp_stamps s op x hx with ⟨y, hy, hxy⟩ | ⟨hx1, hx2⟩
  · have := hg y hy
    omega
  · omega

theorem clearedAt_applyOp (a0 : Nat) (s : Store T) (op : Op T)
    (hc : ClearedAt a0 s) : ClearedAt a0 (s.applyOp op) := by
  have hle := alloc_idx_le_applyOp s op
  refine ⟨Nat.le_trans hc.1 hle, ?_⟩
  intro x hx
  rcases applyOp_stamps s op x hx with ⟨y, hy, hxy⟩ | ⟨hx1, hx2⟩
  · have := hc.2 y hy
    omega
  · have := hc.1
    omega

theorem clearedAt_run (a0 : Nat) (s : Store T) (ops : List (Op T))
    (hc : ClearedAt a0 s) : ClearedAt a0 (s.run ops) := by
  induction ops generalizing s with
  | nil => exact hc
  | cons op ops ih => exact ih (s.applyOp op) (clearedAt_applyOp a0 s op hc)

theorem clearedAt_clear (s : Store T) : ClearedAt s.alloc_idx s.clear := by
  refine ⟨Nat.le_refl _, ?_⟩
  intro x hx
  simp [Store.clear] at hx

theorem get_oob (s : Store T) (h : Handle T)
    (hoob : s.values.length ≤ h.index) :
    s.get h = Except.error
      (if topByte s.alloc_idx = topByte h.alloc_idx then
        StoreError.StoreMutated
      else StoreError.WrongStore) := by
  have hnone : s.values.get? h.index = none := List.get?_len_le hoob
  simp only [Store.get, hnone, check_handle_spec]
  by_cases he : s.alloc_idx = h.alloc_idx
  · simp [he]
  · by_cases ht : topByte s.alloc_idx = topByte h.alloc_idx
    · simp [he, ht]
    · simp [he, ht]

theorem get_mut_oob (s : Store T) (h : Handle T)
    (hoob : s.values.length ≤ h.index) :
    s.get_mut h = Except.error
      (if topByte s.alloc_idx = topByte h.alloc_idx then
        StoreError.StoreMutated
      else StoreError.WrongStore) := by
  have hnone : s.values.get? h.index = none := List.get?_len_le hoob
  simp only [Store.get_mut, hnone, check_handle_spec]
  by_cases he : s.alloc_idx = h.alloc_idx
  · simp [he]
  · by_cases ht : topByte s.alloc_idx = topByte h.alloc_idx
    · simp [he, ht]
    · simp [he, ht]

theorem set_oob (s : Store T) (h : Handle T) (v : T)
    (hoob : s.values.length ≤ h.index) :
    s.set h v = (Except.error
      (if topByte s.alloc_idx = topByte h.alloc_idx then
        StoreError.StoreMutated
      else StoreError.WrongStore), s) := by
  have hnone : s.values.get? h.index = none := List.get?_len_le hoob
  simp only [Store.set, hnone, check_handle_spec]
  by_cases he : s.alloc_idx = h.alloc_idx
  · simp [he]
  · by_cases ht : topByte s.alloc_idx = topByte h.alloc_idx
    · simp [he, ht]
    · simp [he, ht]

theorem take_oob (s : Store T) (h : Handle T)
    (hoob : s.values.length ≤ h.index) :
    s.take h = (Except.error StoreError.StoreMutated, s) := by
  have hnone : s.values.get? h.index = none := List.get?_len_le hoob
  simp only [Store.take, hnone]

/-- C1 counterexample: a handle with index 0 and stamp 2 ^ 56 (as a
fresh store with instance tag 1 would issue) presented to an empty
store with instance tag 0.  The index 0 is out of bounds, the top
bytes differ (1 vs 0), so the validation algorithm run against the
live counter yields WrongStore; yet take returns StoreMutated, so
take does not return the validation error as the claim states. -/
theorem take_oob_counterexample :
    (Store.new Nat 0).values.length ≤ (⟨0, 2 ^ 56⟩ : Handle Nat).index ∧
    topByte (Store.new Nat 0).alloc_idx ≠
      topByte ((⟨0, 2 ^ 56⟩ : Handle Nat).alloc_idx) ∧
    Store.check_handle (⟨0, 2 ^ 56⟩ : Handle Nat) (Store.new Nat 0).alloc_idx =
      Except.error StoreError.WrongStore ∧
    ((Store.new Nat 0).take ⟨0, 2 ^ 56⟩).1 =
      Except.error StoreError.StoreMutated := by
  decide

/-- C1 (amended): for every handle whose index is out of the current
bounds of the slot sequence, get, get_mut and set return the error of
the validation algorithm run with the recorded stamp taken to be the
live counter (StoreMutated when the top bytes agree, WrongStore when
they differ, and never Ok, also when the stamp equals the counter);
take, however, returns StoreMutated unconditionally, without running
the validation algorithm. -/
theorem oob_fallible_ops (s : Store T) (h : Handle T) (v : T)
    (hoob : s.values.length ≤ h.index) :
    s.get h = Except.error
      (if topByte s.alloc_idx = topByte h.alloc_idx then
        StoreError.StoreMutated
      else StoreError.WrongStore) ∧
    s.get_mut h = Except.error
      (if topByte s.alloc_idx = topByte h.alloc_idx then
        StoreError.StoreMutated
      else StoreError.WrongStore) ∧
    (s.set h v).1 = Except.error
      (if topByte s.alloc_idx = topByte h.alloc_idx then
        StoreError.StoreMutated
      else StoreError.WrongStore) ∧
    (s.take h).1 = Except.error StoreError.StoreMutated :=
  ⟨get_oob s h hoob, get_mut_oob s h hoob,
   by rw [set_oob s h v hoob], by rw [take_oob s h hoob]⟩

/-- C1 witness: the amended statement evaluated on an empty store with
tag 0 and a handle with stamp 2 ^ 56 (top byte 1). -/
theorem oob_fallible_ops_witness :
    (Store.new Nat 0).values.length ≤ (⟨0, 2 ^ 56⟩ : Handle Nat).index ∧
    (Store.new Nat 0).get ⟨0, 2 ^ 56⟩ = Except.error StoreError.WrongStore ∧
    ((Store.new Nat 0).take ⟨0, 2 ^ 56⟩).1 =
      Except.error StoreError.StoreMutated := by
  have H := oob_fallible_ops (Store.new Nat 0) (⟨0, 2 ^ 56⟩ : Handle Nat) 0
    (by decide)
  refine ⟨by decide, ?_, H.2.2.2⟩
  rw [H.1]
  decide

theorem run_replicate_alloc (s : Store T) (n : Nat) :
    (s.run (List.replicate n Op.alloc)).alloc_idx = s.alloc_idx + n := by
  induction n generalizing s with
  | zero => rfl
  | succ n ih =>
    rw [List.replicate_succ, run_cons, ih]
    show s.alloc_idx + 1 + n = s.alloc_idx + (n + 1)
    omega

/-- C2 (amended): every handle issued before a clear yields
StoreMutated from get after the clear — whether or not its index was
reoccupied by later allocations — provided the live counter still
carries the same top byte as the handle stamp (the counter fits in 64
bits in Rust; within a store the top byte changes only once 2 ^ 56
allocations cross a byte boundary). -/
theorem get_after_clear_mutated (s : Store T) (ops1 ops2 : List (Op T))
    (h : Handle T) (hiss : Issues s ops1 h)
    (hbound : (((s.run ops1).clear).run ops2).alloc_idx < 2 ^ 64)
    (htop : topByte (((s.run ops1).clear).run ops2).alloc_idx =
      topByte h.alloc_idx) :
    (((s.run ops1).clear).run ops2).get h =
      Except.error StoreError.StoreMutated := by
  have hstamp : h.alloc_idx < (s.run ops1).alloc_idx :=
    issues_stamp_lt s ops1 h hiss
  have hca : ClearedAt (s.run ops1).alloc_idx (((s.run ops1).clear).run ops2) :=
    clearedAt_run _ _ ops2 (clearedAt_clear (s.run ops1))
  cases hget : (((s.run ops1).clear).run ops2).values.get? h.index with
  | none =>
    have hne : (((s.run ops1).clear).run ops2).alloc_idx ≠ h.alloc_idx := by
      have := hca.1
      omega
    rw [List.get?_eq_getElem?] at hget
    simp [Store.get, hget, check_handle_spec, hne, htop]
  | some slot =>
    have hmem := List.get?_mem hget
    have hslot := hca.2 slot hmem
    have hne : slot.alloc_idx ≠ h.alloc_idx := by omega
    have htb : topByte slot.alloc_idx = topByte h.alloc_idx := by
      have h1 : h.alloc_idx ≤ slot.alloc_idx := by omega
      have h2 : slot.alloc_idx ≤ (((s.run ops1).clear).run ops2).alloc_idx := by
        omega
      exact topByte_eq_of_between h.alloc_idx slot.alloc_idx
        (((s.run ops1).clear).run ops2).alloc_idx h1 h2 hbound htop.symm
    rw [List.get?_eq_getElem?] at hget
    simp [Store.get, hget, check_handle_spec, hne, htb]

/-- C2 counterexample: in a store created with tag 0, a handle issued
by the very first insert and then 2 ^ 56 - 1 further allocations push
the live counter to 2 ^ 56, whose top byte is 1; after clear, get on
that handle returns WrongStore, not StoreMutated as the claim
states. -/
theorem get_after_clear_counterexample :
    Issues (Store.new Nat 0)
      (Op.insert 0 :: List.replicate (2 ^ 56 - 1) Op.alloc)
      (⟨0, 0⟩ : Handle Nat) ∧
    (((Store.new Nat 0).run
        (Op.insert 0 :: List.replicate (2 ^ 56 - 1) Op.alloc)).clear).get
      (⟨0, 0⟩ : Handle Nat) = Except.error StoreError.WrongStore := by
  constructor
  · exact Issues.insert_head (Store.new Nat 0) 0 (List.replicate (2 ^ 56 - 1) Op.alloc)
  · have halloc :
        ((Store.new Nat 0).run
          (Op.insert 0 :: List.replicate (2 ^ 56 - 1) Op.alloc)).alloc_idx =
          2 ^ 56 := by
      rw [run_cons, run_replicate_alloc]
      show 0 % 256 * 2 ^ 56 + 1 + (2 ^ 56 - 1) = 2 ^ 56
      norm_num
    have hclear :
        (((Store.new Nat 0).run
          (Op.insert 0 :: List.replicate (2 ^ 56 - 1) Op.alloc)).clear) =
          (⟨[], 2 ^ 56⟩ : Store Nat) := by
      simp only [Store.clear]
      rw [halloc]
    rw [hclear]
    decide

/-- C2 witness: a handle issued by insert, cleared, and its index 0
reoccupied by a later alloc, still yields StoreMutated. -/
theorem get_after_clear_mutated_witness :
    Issues (Store.new Nat 0) [Op.insert 5] (⟨0, 0⟩ : Handle Nat) ∧
    ((((Store.new Nat 0).run [Op.insert 5]).clear).run [Op.alloc]).get
      (⟨0, 0⟩ : Handle Nat) = Except.error StoreError.StoreMutated := by
  constructor
  · exact Issues.insert_head (Store.new Nat 0) 5 []
  · exact get_after_clear_mutated (Store.new Nat 0) [Op.insert 5] [Op.alloc]
      (⟨0, 0⟩ : Handle Nat)
      (Issues.insert_head (Store.new Nat 0) 5 [])
      (by decide) (by decide)

/-- C3: check_handle is Ok exactly when the recorded stamp equals the
handle stamp; on a mismatch it is WrongStore exactly when the top
bytes differ and StoreMutated exactly when they agree. -/
theorem check_handle_correct (h : Handle T) (recorded_stamp : Nat) :
    (Store.check_handle h recorded_stamp = Except.ok () ↔
      recorded_stamp = h.alloc_idx) ∧
    (Store.check_handle h recorded_stamp =
        Except.error StoreError.WrongStore ↔
      recorded_stamp ≠ h.alloc_idx ∧
        topByte recorded_stamp ≠ topByte h.alloc_idx) ∧
    (Store.check_handle h recorded_stamp =
        Except.error StoreError.StoreMutated ↔
      recorded_stamp ≠ h.alloc_idx ∧
        topByte recorded_stamp = topByte h.alloc_idx) := by
  rw [check_handle_spec]
  by_cases he : recorded_stamp = h.alloc_idx
  · simp [he]
  · by_cases ht : topByte recorded_stamp = topByte h.alloc_idx
    · simp [he, ht]
    · simp [he, ht]

/-- C3 witness: concrete evaluations of the three branches. -/
theorem check_handle_correct_witness :
    Store.check_handle (⟨0, 5⟩ : Handle Nat) 5 = Except.ok () ∧
    Store.check_handle (⟨0, 5⟩ : Handle Nat) 6 =
      Except.error StoreError.StoreMutated ∧
    Store.check_handle (⟨0, 5⟩ : Handle Nat) (2 ^ 56) =
      Except.error StoreError.WrongStore :=
  ⟨(check_handle_correct (⟨0, 5⟩ : Handle Nat) 5).1.2 rfl,
   ((check_handle_correct (⟨0, 5⟩ : Handle Nat) 6).2.2).2 (by decide),
   ((check_handle_correct (⟨0, 5⟩ : Handle Nat) (2 ^ 56)).2.1).2 (by decide)⟩

/-- C4: get applied to the handle just returned by insert yields the
inserted value, for every store and value. -/
theorem insert_get_roundtrip (s : Store T) (v : T) :
    ((s.insert v).1).get (s.insert v).2 = Except.ok v := by
  simp [Store.get, Store.insert, Handle.new, Slot.new_occupied,
    check_handle_spec, List.get?_eq_getElem?, List.getElem?_concat_length]

/-- C5: after h = insert v1, set h v2 returns the previous payload
Ok(Some v1) and a subsequent get h returns Ok v2; after h = alloc,
set h v2 returns Ok None (empty previous payload). -/
theorem set_returns_previous (s : Store T) (v1 v2 : T) :
    (((s.insert v1).1).set (s.insert v1).2 v2).1 = Except.ok (some v1) ∧
    ((((s.insert v1).1).set (s.insert v1).2 v2).2).get (s.insert v1).2 =
      Except.ok v2 ∧
    (((s.alloc).1).set (s.alloc).2 v2).1 = Except.ok none := by
  refine ⟨?_, ?_, ?_⟩
  · simp [Store.set, Store.insert, Handle.new, Slot.new_occupied, Slot.swap,
      check_handle_spec, List.get?_eq_getElem?, List.getElem?_concat_length]
  · simp [Store.set, Store.get, Store.insert, Handle.new, Slot.new_occupied,
      Slot.swap, check_handle_spec, List.get?_eq_getElem?,
      List.getElem?_concat_length, List.getElem?_set_self']
  · simp [Store.set, Store.alloc, Handle.new, Slot.new_empty, Slot.swap,
      check_handle_spec, List.get?_eq_getElem?, List.getElem?_concat_length]

/-- C6: after h = insert v, take h returns Ok v; on the resulting
store a second take h returns SlotEmpty and get h returns SlotEmpty:
removal is idempotent and does not invalidate the handle. -/
theorem take_idempotent_removal (s : Store T) (v : T) :
    (((s.insert v).1).take (s.insert v).2).1 = Except.ok v ∧
    ((((s.insert v).1).take (s.insert v).2).2.take (s.insert v).2).1 =
      Except.error StoreError.SlotEmpty ∧
    ((((s.insert v).1).take (s.insert v).2).2).get (s.insert v).2 =
      Except.error StoreError.SlotEmpty := by
  refine ⟨?_, ?_, ?_⟩
  · simp [Store.take, Store.insert, Handle.new, Slot.new_occupied, Slot.take,
      check_handle_spec, List.get?_eq_getElem?, List.getElem?_concat_length]
  · simp [Store.take, Store.insert, Handle.new, Slot.new_occupied, Slot.take,
      check_handle_spec, List.get?_eq_getElem?, List.getElem?_concat_length,
      List.getElem?_set_self']
  · simp [Store.take, Store.get, Store.insert, Handle.new, Slot.new_occupied,
      Slot.take, check_handle_spec, List.get?_eq_getElem?,
      List.getElem?_concat_length, List.getElem?_set_self']

/-- C7: get applied to the handle just returned by alloc yields
SlotEmpty: the fresh slot validates but holds no value. -/
theorem alloc_get_empty (s : Store T) :
    ((s.alloc).1).get (s.alloc).2 = Except.error StoreError.SlotEmpty := by
  simp [Store.get, Store.alloc, Handle.new, Slot.new_empty,
    check_handle_spec, List.get?_eq_getElem?, List.getElem?_concat_length]

/-- C8: direct indexed access performs no stamp validation: the
result is independent of the handle stamp; an out-of-bounds index
panics (the none case of the model); an in-bounds index returns the
optional payload currently stored at that index, stale stamp or
not. -/
theorem index_no_validation (s : Store T) (i a b : Nat) :
    s.indexGet ⟨i, a⟩ = s.indexGet ⟨i, b⟩ ∧
    (s.values.length ≤ i → s.indexGet ⟨i, a⟩ = none) ∧
    (∀ slot, s.values.get? i = some slot →
      s.indexGet ⟨i, a⟩ = some slot.value) := by
  refine ⟨rfl, ?_, ?_⟩
  · intro hle
    simp only [Store.indexGet]
    rw [List.get?_len_le hle]
    rfl
  · intro slot hget
    simp only [Store.indexGet]
    rw [hget]
    rfl

/-- C8 witness: a stale handle (stamp 99 never issued) still reads
the payload at index 0; an out-of-bounds access on the empty store
hits the panic case. -/
theorem index_no_validation_witness :
    (((Store.new Nat 0).insert 4).1).indexGet ⟨0, 99⟩ = some (some 4) ∧
    (Store.new Nat 0).indexGet ⟨0, 0⟩ = none := by
  have H1 := index_no_validation (((Store.new Nat 0).insert 4).1) 0 99 0
  have H2 := index_no_validation (Store.new Nat 0) 0 0 0
  exact ⟨H1.2.2 (⟨some 4, 0⟩ : Slot Nat) rfl, H2.2.1 (by decide)⟩

theorem applyOp_length (s : Store T) (op : Op T) (hne : op ≠ Op.clear) :
    s.values.length ≤ (s.applyOp op).values.length := by
  cases op with
  | insert v =>
    have : (s.applyOp (Op.insert v)).values.length = s.values.length + 1 := by
      simp [Store.applyOp, Store.insert]
    omega
  | alloc =>
    have : (s.applyOp Op.alloc).values.length = s.values.length + 1 := by
      simp [Store.applyOp, Store.alloc]
    omega
  | clear => exact absurd rfl hne
  | set h v =>
    simp only [Store.applyOp, Store.set]
    split
    · split
      · exact Nat.le_refl _
      · simp [List.length_set]
    · split
      · exact Nat.le_refl _
      · exact Nat.le_refl _
  | take h =>
    simp only [Store.applyOp, Store.take]
    split
    · exact Nat.le_refl _
    · split
      · exact Nat.le_refl _
      · simp [List.length_set]

/-- C9: a fresh store satisfies the stamp invariant; the slot
sequence length never shrinks except through clear, which zeroes it;
the counter never decreases, insert and alloc add exactly 1 to it and
clear leaves it unchanged; the stamp invariant (every slot stamp
strictly below the counter) is preserved by every operation; and
every handle issued during any run carries a stamp strictly below the
resulting live counter. -/
theorem store_invariants (c : Nat) (s : Store T) (op : Op T)
    (ops : List (Op T)) (h : Handle T) (hg : GoodStore s) :
    GoodStore (Store.new T c) ∧
    (op ≠ Op.clear → s.values.length ≤ (s.applyOp op).values.length) ∧
    (s.applyOp Op.clear).values.length = 0 ∧
    s.alloc_idx ≤ (s.applyOp op).alloc_idx ∧
    (∀ v : T, (s.applyOp (Op.insert v)).alloc_idx = s.alloc_idx + 1) ∧
    (s.applyOp Op.alloc).alloc_idx = s.alloc_idx + 1 ∧
    (s.applyOp Op.clear).alloc_idx = s.alloc_idx ∧
    GoodStore (s.applyOp op) ∧
    (Issues s ops h → h.alloc_idx < (s.run ops).alloc_idx) := by
  refine ⟨?_, applyOp_length s op, rfl, alloc_idx_le_applyOp s op,
    fun v => rfl, rfl, rfl, goodStore_applyOp s op hg,
    issues_stamp_lt s ops h⟩
  intro x hx
  simp [Store.new] at hx

/-- C9 witness: the invariant bundle evaluated on a fresh store with
tag 0 and a single alloc. -/
theorem store_invariants_witness :
    GoodStore (Store.new Nat 0) ∧
    ((Store.new Nat 0).applyOp Op.alloc).alloc_idx = 1 ∧
    (⟨0, 0⟩ : Handle Nat).alloc_idx <
      ((Store.new Nat 0).run [Op.alloc]).alloc_idx := by
  have H := store_invariants 0 (Store.new Nat 0) Op.alloc [Op.alloc]
    (⟨0, 0⟩ : Handle Nat) (by intro x hx; simp [Store.new] at hx)
  exact ⟨H.1, H.2.2.2.2.2.1,
    H.2.2.2.2.2.2.2.2 (Issues.alloc_head (Store.new Nat 0) [])⟩

/-- C10: whenever set or take returns an error, the store value is
unchanged (same slots, same length, same counter); in particular set
with an out-of-bounds index never grows the store and, even in the
edge case where the handle stamp equals the live counter so that
validation passes, it returns (Err StoreMutated, unchanged store). -/
theorem error_atomicity (s : Store T) (h : Handle T) (v : T)
    (e : StoreError) :
    ((s.set h v).1 = Except.error e → (s.set h v).2 = s) ∧
    ((s.take h).1 = Except.error e → (s.take h).2 = s) ∧
    (s.values.length ≤ h.index →
      (s.set h v).2 = s ∧
        (h.alloc_idx = s.alloc_idx →
          s.set h v = (Except.error StoreError.StoreMutated, s))) := by
  refine ⟨?_, ?_, ?_⟩
  · simp only [Store.set]
    split
    · split
      · intro _
        rfl
      · intro he
        simp at he
    · split
      · intro _
        rfl
      · intro _
        rfl
  · simp only [Store.take]
    split
    · intro _
      rfl
    · next slot hget =>
      split
      · intro _
        rfl
      · intro he
        cases hv : slot.value with
        | some w =>
          simp [Slot.take, hv] at he
        | none =>
          have hslot : (Slot.take slot).2 = slot := by
            cases slot with
            | mk val a =>
              simp only [Slot.take]
              simp at hv
              rw [hv]
          show (⟨s.values.set h.index (Slot.take slot).2, s.alloc_idx⟩ :
            Store T) = s
          rw [hslot, set_get?_eq s.values h.index slot hget]
  · intro hle
    have hs := set_oob s h v hle
    constructor
    · rw [hs]
    · intro hstamp
      rw [hs, hstamp]
      simp [topByte]

/-- C10 witness: a second take on an emptied slot errors with
SlotEmpty and leaves the store unchanged; set on an out-of-bounds
handle whose stamp equals the live counter returns StoreMutated with
the store unchanged. -/
theorem error_atomicity_witness :
    ((((Store.new Nat 0).insert 1).1.take ⟨0, 0⟩).2.take ⟨0, 0⟩).2 =
      (((Store.new Nat 0).insert 1).1.take ⟨0, 0⟩).2 ∧
    (Store.new Nat 0).set ⟨0, 0⟩ 7 =
      (Except.error StoreError.StoreMutated, Store.new Nat 0) := by
  have H1 := error_atomicity ((((Store.new Nat 0).insert 1).1.take
    ⟨0, 0⟩).2) (⟨0, 0⟩ : Handle Nat) 7 StoreError.SlotEmpty
  have H2 := error_atomicity (Store.new Nat 0) (⟨0, 0⟩ : Handle Nat) 7
    StoreError.StoreMutated
  exact ⟨H1.2.1 (by decide), (H2.2.2 (by decide)).2 (by decide)⟩
